import Mathlib

/-!
Shallow embedding of the `berret status` live-monitoring engine
(`NpmMonitor` in `src/commands/status.js`, shipped in this repository next
to `stash.js`): dependency-chain classification (`analyzeDependencyChain`,
`findPackageInLock`), installation tracking (`trackInstallationWithProgress`,
`simulateInstallProgress`, `checkInstallationCompleteWithProgress`,
`estimateInstallDuration`), project registration
(`fastFindAndMonitorProjects`) and the global-store watcher
(`watchGlobalNodeModules`).

Modelling conventions:
* JavaScript strings are Lean `String`s; the JS string operations used by
  the source (`endsWith`, `replace` with a string pattern — which replaces
  only the FIRST occurrence, `split('/')` + `pop()`, `includes`,
  `startsWith`) are re-implemented below on `List Char` with JS semantics.
* Filesystem reads are passed in as explicit arguments: a `fs.readJson`
  that may throw is an `Except Unit α`, an `fs.pathExists`/`fs.existsSync`
  is a `Bool` or a `String → Bool` oracle.
* Timers are not real time: each timer callback is embedded as a pure step
  function on the monitor state, and the literal delays of the source
  (`200`, `500`, `300`, `1000` ms) are named constants returned as
  scheduling data.
* JS numbers in the progress arithmetic are modelled as rationals `ℚ`.
-/

/-- JS `a.isPrefixOf`-style check on char lists: `chIsPrefix pat s` is true
iff `pat` is a prefix of `s` (true for the empty pattern, as in JS). -/
def chIsPrefix : List Char → List Char → Bool
  | [], _ => true
  | _ :: _, [] => false
  | a :: as, b :: bs => a == b && chIsPrefix as bs

/-- JS `String.prototype.endsWith` : `suffix` is a suffix of `s`. -/
def jsEndsWith (s suffix : String) : Bool :=
  chIsPrefix suffix.data.reverse s.data.reverse

/-- Char-list core of JS `String.prototype.replace` with a string pattern:
replaces only the FIRST occurrence of `pat` (the whole string is returned
unchanged when `pat` does not occur; the empty pattern matches at the
start, as in JS). -/
def chReplaceFirst (pat repl : List Char) : List Char → List Char
  | [] => if pat.isEmpty then repl else []
  | c :: rest =>
    if chIsPrefix pat (c :: rest) then repl ++ (c :: rest).drop pat.length
    else c :: chReplaceFirst pat repl rest

/-- JS `s.replace(pat, repl)` with a string pattern: first occurrence only. -/
def jsReplaceFirst (s pat repl : String) : String :=
  ⟨chReplaceFirst pat.data repl.data s.data⟩

/-- JS `array.pop()` on the (never empty) result of `split('/')`, with the
falsy-fallback convention folded in by callers: returns the last element,
`""` for an empty array (JS `undefined` is falsy exactly like `""` at the
single use site `parentName || parent`). -/
def jsPop (l : List String) : String :=
  (l.getLast?).getD ""

/-- Char-list core of JS `String.prototype.split` with a one-character
separator: `"".split(sep)` is `[""]`, and adjacent separators produce
empty segments. -/
def chSplitOn (sep : Char) : List Char → List (List Char)
  | [] => [[]]
  | c :: rest =>
    if c == sep then [] :: chSplitOn sep rest
    else
      match chSplitOn sep rest with
      | [] => [[c]]
      | seg :: segs => (c :: seg) :: segs

/-- JS `s.split('/')`. -/
def jsSplitSlash (s : String) : List String :=
  (chSplitOn '/' s.data).map (fun l => ⟨l⟩)

/-- JS `String.prototype.startsWith`. -/
def jsStartsWith (s pat : String) : Bool :=
  chIsPrefix pat.data s.data

/-- JS `String.prototype.includes` : substring test. -/
def chContainsSubstr (pat : List Char) : List Char → Bool
  | [] => pat.isEmpty
  | c :: rest => chIsPrefix pat (c :: rest) || chContainsSubstr pat rest

/-- JS `s.includes(pat)`. -/
def jsIncludes (s pat : String) : Bool :=
  chContainsSubstr pat.data s.data

/-- `path.basename`: the last `/`-separated segment (paths are modelled
without trailing separators, which is how chokidar reports them). -/
def basename (p : String) : String :=
  jsPop (jsSplitSlash p)

/-- The result record of `analyzeDependencyChain`:
`{ type, parent, reason }`. `type` is one of the literal strings
`"user-requested"` (spec: UserRequested), `"dependency"` (spec: Transitive)
and `"unknown"` (spec: Unknown). -/
structure ChainInfo where
  type : String
  parent : Option String
  reason : String
deriving Repr, DecidableEq

/-- The slice of a project manifest (`package.json`) read by the monitor:
the `dependencies` and `devDependencies` maps, as association lists
(absent maps are modelled as `[]`, matching the JS spread of `undefined`). -/
structure Manifest where
  dependencies : List (String × String)
  devDependencies : List (String × String)
deriving Repr, DecidableEq

/-- The JS merge `{ ...packageJson.dependencies, ...packageJson.devDependencies }`
followed by key lookup: a key in `devDependencies` shadows `dependencies`. -/
def mergedDepsLookup (m : Manifest) (name : String) : Option String :=
  match m.devDependencies.lookup name with
  | some v => some v
  | none => m.dependencies.lookup name

/-- JS truthiness of `allDeps[packageName]`: the key must be present AND its
value must be a truthy string (the empty string is falsy). -/
def jsTruthyLookup (v : Option String) : Bool :=
  match v with
  | some s => !(s == "")
  | none => false

/-- Nested-tree lock format: each entry maps a package name to its
`dependencies` subtree (an absent `dependencies` field is modelled as `[]`;
the JS guard `if (depInfo.dependencies)` treats the empty object as truthy
and recursing into an empty forest finds nothing either way). -/
inductive LockTree where
  | node (dependencies : List (String × LockTree)) : LockTree

/-- The slice of `package-lock.json` read by `findPackageInLock`: the flat
`packages` path table (only its keys are inspected by the source) and the
nested `dependencies` tree. -/
structure LockJson where
  packages : Option (List String)
  dependencies : Option (List (String × LockTree))

/-- The `lockJson.packages` loop of `findPackageInLock`
(`status.js` lines 374-382): find the first key ending in
`/node_modules/<packageName>`, delete the FIRST occurrence of that pattern
(JS `replace`), and take the last `/`-segment of what remains, falling back
to the `parent` parameter when that segment is empty. -/
def findInPackagesTable (packageName : String) (parent : Option String) :
    List String → Option (Option String)
  | [] => none
  | pkgPath :: rest =>
    if jsEndsWith pkgPath ("/node_modules/" ++ packageName) then
      let parentPath := jsReplaceFirst pkgPath ("/node_modules/" ++ packageName) ""
      let parentName := jsPop (jsSplitSlash parentPath)
      some (if parentName = "" then parent else some parentName)
    else findInPackagesTable packageName parent rest

/-- The `lockJson.dependencies` recursion of `findPackageInLock`
(`status.js` lines 384-394): check each entry's name, else recurse into its
subtree with the entry's name as the new `parent`, else continue with the
rest of the forest. -/
def findPackageInDepsList (packageName : String) (parent : Option String) :
    List (String × LockTree) → Option (Option String)
  | [] => none
  | (depName, LockTree.node sub) :: rest =>
    if depName = packageName then some parent
    else
      match findPackageInDepsList packageName (some depName) sub with
      | some result => some result
      | none => findPackageInDepsList packageName parent rest

/-- `findPackageInLock(packageName, lockJson, parent)`: flat `packages`
table first, then the nested `dependencies` tree. -/
def findPackageInLock (packageName : String) (lockJson : LockJson)
    (parent : Option String) : Option (Option String) :=
  match (match lockJson.packages with
         | some table => findInPackagesTable packageName parent table
         | none => none) with
  | some r => some r
  | none =>
    match lockJson.dependencies with
    | some deps => findPackageInDepsList packageName parent deps
    | none => none

/-- JS `x || 'unknown package'` on an optional string (both `null` and the
empty string are falsy). -/
def jsOrUnknownPackage (v : Option String) : String :=
  match v with
  | some s => if s = "" then "unknown package" else s
  | none => "unknown package"

/-- `analyzeDependencyChain(packageName, projectPath)` (`status.js` lines
329-371), with the filesystem passed in explicitly:
`manifestRead` is the result of `fs.readJson(projectPath + '/package.json')`
(`Except.error` when the file is missing or malformed), `lockExists` is
`fs.pathExists(projectPath + '/package-lock.json')` and `lockRead` the
result of reading it. The whole body runs inside one `try`, so any read
error yields the catch-branch result. -/
def analyzeDependencyChain (packageName : String)
    (manifestRead : Except Unit Manifest)
    (lockExists : Bool) (lockRead : Except Unit LockJson) : ChainInfo :=
  match manifestRead with
  | .error _ => ⟨"unknown", none, "Could not analyze dependency chain"⟩
  | .ok packageJson =>
    if jsTruthyLookup (mergedDepsLookup packageJson packageName) then
      ⟨"user-requested", none, "Direct dependency in package.json"⟩
    else if lockExists then
      match lockRead with
      | .error _ => ⟨"unknown", none, "Could not analyze dependency chain"⟩
      | .ok lockJson =>
        match findPackageInLock packageName lockJson none with
        | some parentOpt =>
          ⟨"dependency", parentOpt,
            "Dependency of " ++ jsOrUnknownPackage parentOpt⟩
        | none => ⟨"unknown", none, "Installation source unknown"⟩
    else ⟨"unknown", none, "Installation source unknown"⟩

/-- `largePackages` (`status.js` line 555). -/
def largePackages : List String :=
  ["react", "angular", "vue", "webpack", "typescript", "babel"]

/-- `mediumPackages` (`status.js` line 556). -/
def mediumPackages : List String :=
  ["lodash", "moment", "axios", "express"]

/-- `estimateInstallDuration(packageName)` (`status.js` lines 553-565):
8000 ms if the name CONTAINS a large-package fragment, else 4000 ms for a
medium fragment, else 2000 ms. -/
def estimateInstallDuration (packageName : String) : Nat :=
  if largePackages.any (fun pkg => jsIncludes packageName pkg) then 8000
  else if mediumPackages.any (fun pkg => jsIncludes packageName pkg) then 4000
  else 2000

/-- One entry of `this.activeInstalls` (`status.js` lines 487-492); the
progress bar object is identified by the numeric id issued at creation. -/
structure Installation where
  startTime : ℚ
  projectName : String
  chainInfo : ChainInfo
  progressBar : Nat
deriving Repr, DecidableEq

/-- The mutable maps of `NpmMonitor` that the tracked claims concern:
`activeInstalls` and `progressBars` (keyed by the composite string key),
the per-key progress-tick intervals started by `simulateInstallProgress`,
the `monitoredProjects` set, and a counter issuing fresh progress-bar ids
(`multibar.create`). -/
structure MonitorState where
  activeInstalls : List (String × Installation)
  progressBars : List (String × Nat)
  progressIntervals : List String
  monitoredProjects : List String
  nextBarId : Nat
deriving Repr, DecidableEq

/-- The composite key `` `${projectName}:${packageName}` `` of
`trackInstallationWithProgress`. -/
def compositeKey (projectName packageName : String) : String :=
  projectName ++ ":" ++ packageName

/-- `trackInstallationWithProgress(packageName, projectName, chainInfo)`
(`status.js` lines 475-501): a no-op if the composite key is already in
`activeInstalls`; otherwise creates one progress bar, one `activeInstalls`
record, one `progressBars` entry and starts the progress tick and the
completion poll for the key. `now` is `Date.now()`. -/
def trackInstallationWithProgress (st : MonitorState)
    (packageName projectName : String) (chainInfo : ChainInfo)
    (now : ℚ) : MonitorState :=
  let key := compositeKey projectName packageName
  if (st.activeInstalls.lookup key).isSome then st
  else
    { st with
      activeInstalls :=
        (key, ⟨now, projectName, chainInfo, st.nextBarId⟩) :: st.activeInstalls
      progressBars := (key, st.nextBarId) :: st.progressBars
      progressIntervals := key :: st.progressIntervals
      nextBarId := st.nextBarId + 1 }

/-- The tick period of `simulateInstallProgress` (`status.js` line 547). -/
def progressTickMs : Nat := 200

/-- One tick of the `setInterval` body of `simulateInstallProgress`
(`status.js` lines 530-547): `none` when the key is no longer active (the
interval clears itself and updates nothing), otherwise the percentage
written to the progress bar:
`Math.min(95, (elapsed / estimatedDuration) * 100)`. -/
def simulateProgressTick (st : MonitorState) (key packageName : String)
    (now : ℚ) : Option ℚ :=
  match st.activeInstalls.lookup key with
  | none => none
  | some install =>
    some (min 95 ((now - install.startTime) /
      (estimateInstallDuration packageName : ℚ) * 100))

/-- `getGlobalNodeModulesPath()` (`status.js` lines 649-655), non-Windows
branch (the Windows branch differs only in the constant path). -/
def getGlobalNodeModulesPath : String := "/usr/local/lib/node_modules"

/-- The `packagePath` resolution of `checkInstallationCompleteWithProgress`
(`status.js` lines 577-591): global store for `GLOBAL`, the cwd-relative
`node_modules` for `LOCAL`, else the first monitored project whose
basename equals the project name; `none` when no monitored project
matches (the JS variable stays `undefined`). `path.join` is modelled as
`/`-concatenation. -/
def resolvePackagePath (monitoredProjects : List String)
    (projectName packageName : String) : Option String :=
  if projectName = "GLOBAL" then
    some (getGlobalNodeModulesPath ++ "/" ++ packageName ++ "/package.json")
  else if projectName = "LOCAL" then
    some ("node_modules/" ++ packageName ++ "/package.json")
  else
    match monitoredProjects.find? (fun p => basename p == projectName) with
    | some monitoredPath =>
      some (monitoredPath ++ "/node_modules/" ++ packageName ++ "/package.json")
    | none => none

/-- Delay before the first completion check (`status.js` line 626). -/
def completionFirstCheckDelayMs : Nat := 500

/-- Re-poll delay of the completion check (`status.js` line 622). -/
def completionRetryDelayMs : Nat := 300

/-- Linger before the completed bar is removed from the display
(`status.js` line 610). -/
def completionLingerMs : Nat := 1000

/-- Outcome of one run of the `checkComplete` closure. -/
inductive PollOutcome where
  | stopped
  | done
  | retry
deriving Repr, DecidableEq

/-- Result of one run of the `checkComplete` closure of
`checkInstallationCompleteWithProgress`: the updated monitor state, the
outcome, the percentage written to the bar (if any), the scheduled
bar-removal linger (if any) and the scheduled re-poll delay (if any). -/
structure CheckResult where
  state : MonitorState
  outcome : PollOutcome
  barUpdate : Option Nat
  lingerScheduledMs : Option Nat
  nextPollMs : Option Nat
deriving Repr, DecidableEq

/-- One run of the `checkComplete` closure (`status.js` lines 574-624):
stop silently when the key is gone; when the resolved package-manifest
path exists, write 100 to the bar, clear the progress interval, schedule
the 1000 ms bar-removal linger and delete the `activeInstalls` and
`progressBars` entries immediately; otherwise re-schedule after 300 ms. -/
def checkCompleteStep (st : MonitorState) (packageName projectName : String)
    (fileExists : String → Bool) : CheckResult :=
  let key := compositeKey projectName packageName
  if (st.activeInstalls.lookup key).isNone then
    ⟨st, .stopped, none, none, none⟩
  else
    match resolvePackagePath st.monitoredProjects projectName packageName with
    | some packagePath =>
      if fileExists packagePath then
        ⟨{ st with
            activeInstalls := st.activeInstalls.filter (fun e => e.1 ≠ key)
            progressBars := st.progressBars.filter (fun e => e.1 ≠ key)
            progressIntervals := st.progressIntervals.filter (fun k => k ≠ key) },
          .done, some 100, some completionLingerMs, none⟩
      else ⟨st, .retry, none, none, some completionRetryDelayMs⟩
    | none => ⟨st, .retry, none, none, some completionRetryDelayMs⟩

/-- The chain info hard-coded by `watchGlobalNodeModules` (`status.js`
line 642). -/
def globalChainInfo : ChainInfo :=
  ⟨"user-requested", none, "Global installation"⟩

/-- The `addDir` handler of `watchGlobalNodeModules` (`status.js` lines
639-645): ignore dot-prefixed entries, otherwise track under the reserved
project name `GLOBAL` with the hard-coded chain info — no manifest or lock
file is consulted. -/
def watchGlobalAddDir (st : MonitorState) (dirPath : String) (now : ℚ) :
    MonitorState :=
  let packageName := basename dirPath
  if jsStartsWith packageName "." then st
  else trackInstallationWithProgress st packageName "GLOBAL" globalChainInfo now

/-- The project set and the watch subscriptions owned by the registry
(`this.monitoredProjects`; one `watchProjectDirectoryWithProgress` call —
i.e. one dependency-directory watch subscription — per registered path). -/
structure WatchRegistry where
  monitoredProjects : List String
  watchSubscriptions : List String
deriving Repr, DecidableEq

/-- The per-project body of the registration batch loop of
`fastFindAndMonitorProjects` (`status.js` lines 286-298): a path already
in `monitoredProjects` is skipped; a new path is added and exactly one
watch subscription is opened for it. -/
def registerProject (st : WatchRegistry) (projectPath : String) :
    WatchRegistry :=
  if st.monitoredProjects.contains projectPath then st
  else
    { monitoredProjects := projectPath :: st.monitoredProjects
      watchSubscriptions := projectPath :: st.watchSubscriptions }

/-- One discovery pass over the project directories found by the scan
(`path.dirname` of each discovered `package.json`), registered in order. -/
def registerDiscoveredProjects (st : WatchRegistry)
    (projectDirs : List String) : WatchRegistry :=
  projectDirs.foldl registerProject st

/-- Spec-side characterisation of the nested-tree search (§4.1 of the
spec): `DepAncestor name p forest` holds when a node named `name` occurs
somewhere in `forest` and `p` is the name of its immediate parent node —
`none` when the occurrence is at the top level of `forest`. -/
inductive DepAncestor : String → Option String → List (String × LockTree) → Prop
  | direct (name : String) (t : LockTree) (forest : List (String × LockTree))
      (h : (name, t) ∈ forest) : DepAncestor name none forest
  | deeper (name dn : String) (sub : List (String × LockTree))
      (forest : List (String × LockTree)) (q : Option String)
      (hmem : (dn, LockTree.node sub) ∈ forest) (hsub : DepAncestor name q sub) :
      DepAncestor name (some (q.getD dn)) forest

/-- `n` successive runs of the completion poll, each feeding the next
(the `setTimeout(checkComplete, 300)` self-rescheduling loop). -/
def pollIter (packageName projectName : String) (fileExists : String → Bool)
    (st : MonitorState) : Nat → MonitorState
  | 0 => st
  | n + 1 =>
    (checkCompleteStep (pollIter packageName projectName fileExists st n)
      packageName projectName fileExists).state

/-- A monitor state with one active installation of `leftpad` in the
`LOCAL` pseudo-project, started at time 0. -/
def exampleLocalState : MonitorState :=
  ⟨[("LOCAL:leftpad", ⟨0, "LOCAL", ⟨"user-requested", none, "Direct dependency in package.json"⟩, 0⟩)],
    [("LOCAL:leftpad", 0)], ["LOCAL:leftpad"], [], 1⟩

/-- A monitor state with one active installation of `lodash` in the
`LOCAL` pseudo-project, started at time 0. -/
def exampleLodashState : MonitorState :=
  ⟨[("LOCAL:lodash", ⟨0, "LOCAL", ⟨"user-requested", none, "Direct dependency in package.json"⟩, 0⟩)],
    [("LOCAL:lodash", 0)], ["LOCAL:lodash"], [], 1⟩

/-- The empty monitor state. -/
def emptyMonitorState : MonitorState := ⟨[], [], [], [], 0⟩

/-- C9: `estimateInstallDuration` returns 8000 ms when the package name
contains any known large-package fragment, else 4000 ms when it contains
any known medium-package fragment, else 2000 ms; the decision is by
substring match (`includes`), not exact name equality — witnessed by
`react-dom` and `lodash.merge`, which are not themselves listed fragments. -/
theorem estimateInstallDuration_substring_heuristic :
    (∀ name : String, (∃ pkg ∈ largePackages, jsIncludes name pkg = true) →
      estimateInstallDuration name = 8000) ∧
    (∀ name : String, (∀ pkg ∈ largePackages, jsIncludes name pkg = false) →
      (∃ pkg ∈ mediumPackages, jsIncludes name pkg = true) →
      estimateInstallDuration name = 4000) ∧
    (∀ name : String, (∀ pkg ∈ largePackages, jsIncludes name pkg = false) →
      (∀ pkg ∈ mediumPackages, jsIncludes name pkg = false) →
      estimateInstallDuration name = 2000) ∧
    (estimateInstallDuration "react-dom" = 8000 ∧ "react-dom" ∉ largePackages ∧
      estimateInstallDuration "lodash.merge" = 4000 ∧
        "lodash.merge" ∉ mediumPackages) := by
  refine ⟨?_, ?_, ?_, by decide⟩
  · intro name h
    have : largePackages.any (fun pkg => jsIncludes name pkg) = true :=
      List.any_eq_true.mpr (by simpa using h)
    simp [estimateInstallDuration, this]
  · intro name hlarge hmed
    have h1 : largePackages.any (fun pkg => jsIncludes name pkg) = false := by
      simp only [List.any_eq_false]
      intro pkg hp
      simp [hlarge pkg hp]
    have h2 : mediumPackages.any (fun pkg => jsIncludes name pkg) = true :=
      List.any_eq_true.mpr (by simpa using hmed)
    simp [estimateInstallDuration, h1, h2]
  · intro name hlarge hmed
    have h1 : largePackages.any (fun pkg => jsIncludes name pkg) = false := by
      simp only [List.any_eq_false]
      intro pkg hp
      simp [hlarge pkg hp]
    have h2 : mediumPackages.any (fun pkg => jsIncludes name pkg) = false := by
      simp only [List.any_eq_false]
      intro pkg hp
      simp [hmed pkg hp]
    simp [estimateInstallDuration, h1, h2]

/-- Witness for C9 at a concrete input: `react-native-web` contains the
large fragment `react`, so the estimate is 8000 ms. -/
theorem estimateInstallDuration_substring_heuristic_witness :
    estimateInstallDuration "react-native-web" = 8000 :=
  estimateInstallDuration_substring_heuristic.1 "react-native-web"
    ⟨"react", by decide, by decide⟩

/-- C2: per composite key at most one `Installation` (and one progress
bar) is ever live: a second detection of the same `(projectName,
packageName)` key while one is active is a complete no-op (same state, so
no new record, bar, or timer), tracking twice equals tracking once, and a
fresh detection creates exactly one record, one bar entry and one progress
interval for the key. -/
theorem trackInstallation_at_most_one :
    (∀ st packageName projectName chainInfo now chainInfo' now',
      trackInstallationWithProgress
        (trackInstallationWithProgress st packageName projectName chainInfo now)
        packageName projectName chainInfo' now' =
      trackInstallationWithProgress st packageName projectName chainInfo now) ∧
    (∀ st packageName projectName chainInfo now,
      (st.activeInstalls.lookup (compositeKey projectName packageName)).isSome = true →
      trackInstallationWithProgress st packageName projectName chainInfo now = st) ∧
    (∀ st packageName projectName chainInfo now,
      st.activeInstalls.lookup (compositeKey projectName packageName) = none →
      ((trackInstallationWithProgress st packageName projectName chainInfo
          now).activeInstalls.countP
          (fun e => e.1 == compositeKey projectName packageName) =
        st.activeInstalls.countP
          (fun e => e.1 == compositeKey projectName packageName) + 1) ∧
      ((trackInstallationWithProgress st packageName projectName chainInfo
          now).progressBars.countP
          (fun e => e.1 == compositeKey projectName packageName) =
        st.progressBars.countP
          (fun e => e.1 == compositeKey projectName packageName) + 1) ∧
      ((trackInstallationWithProgress st packageName projectName chainInfo
          now).progressIntervals.count (compositeKey projectName packageName) =
        st.progressIntervals.count (compositeKey projectName packageName) + 1)) := by
  refine ⟨?_, ?_, ?_⟩
  · intro st packageName projectName chainInfo now chainInfo' now'
    by_cases h : (st.activeInstalls.lookup (compositeKey projectName packageName)).isSome
    · simp [trackInstallationWithProgress, h]
    · simp only [trackInstallationWithProgress]
      rw [if_neg h]
      simp [List.lookup]
  · intro st packageName projectName chainInfo now h
    simp [trackInstallationWithProgress, h]
  · intro st packageName projectName chainInfo now h
    simp only [trackInstallationWithProgress]
    rw [if_neg (by simp [h])]
    refine ⟨?_, ?_, ?_⟩
    · simp [List.countP_cons]
    · simp [List.countP_cons]
    · simp [List.count_cons]

/-- Witness for C2 at a concrete input: re-detecting `lodash` in `LOCAL`
while its installation is active leaves the state unchanged. -/
theorem trackInstallation_at_most_one_witness :
    trackInstallationWithProgress exampleLodashState "lodash" "LOCAL"
      globalChainInfo 5 = exampleLodashState :=
  trackInstallation_at_most_one.2.1 exampleLodashState "lodash" "LOCAL"
    globalChainInfo 5 (by decide)

/-- C3: each Estimating tick reports exactly
`min 95 ((elapsed / estimatedDurationMs) * 100)` — hence never more than
95 — the completion poll writes 100 to the bar only when it observes the
package's manifest file at the resolved location, and with an estimated
duration of 2000 ms and 1000 ms elapsed the tick reports 50. -/
theorem progressTick_capped_spec :
    (∀ st key packageName now install,
      st.activeInstalls.lookup key = some install →
      simulateProgressTick st key packageName now =
        some (min 95 ((now - install.startTime) /
          (estimateInstallDuration packageName : ℚ) * 100))) ∧
    (∀ st key packageName now v,
      simulateProgressTick st key packageName now = some v → v ≤ 95) ∧
    (∀ st packageName projectName fe,
      (checkCompleteStep st packageName projectName fe).barUpdate = some 100 →
      (checkCompleteStep st packageName projectName fe).outcome = .done ∧
      ∃ p, resolvePackagePath st.monitoredProjects projectName packageName =
            some p ∧ fe p = true) ∧
    (∀ st key packageName install,
      st.activeInstalls.lookup key = some install →
      estimateInstallDuration packageName = 2000 →
      simulateProgressTick st key packageName (install.startTime + 1000) =
        some 50) := by
  have tick : ∀ st key packageName now install,
      st.activeInstalls.lookup key = some install →
      simulateProgressTick st key packageName now =
        some (min 95 ((now - install.startTime) /
          (estimateInstallDuration packageName : ℚ) * 100)) := by
    intro st key packageName now install h
    simp [simulateProgressTick, h]
  refine ⟨tick, ?_, ?_, ?_⟩
  · intro st key packageName now v h
    unfold simulateProgressTick at h
    cases hl : st.activeInstalls.lookup key with
    | none => rw [hl] at h; simp at h
    | some install =>
      rw [hl] at h
      simp only [Option.some.injEq] at h
      exact h ▸ min_le_left _ _
  · intro st packageName projectName fe h
    unfold checkCompleteStep at h ⊢
    by_cases hact :
        (st.activeInstalls.lookup
          (compositeKey projectName packageName)).isNone
    · rw [if_pos hact] at h; simp at h
    · rw [if_neg hact] at h ⊢
      cases hr : resolvePackagePath st.monitoredProjects projectName
          packageName with
      | none => rw [hr] at h; simp at h
      | some p =>
        rw [hr] at h
        by_cases hf : fe p
        · exact ⟨by simp [hf], p, rfl, hf⟩
        · simp [hf] at h
  · intro st key packageName install h hest
    rw [tick st key packageName (install.startTime + 1000) install h, hest]
    norm_num

/-- Witness for C3 at a concrete input: `leftpad` has estimated duration
2000 ms, and the tick 1000 ms after its start reports 50. -/
theorem progressTick_capped_spec_witness :
    simulateProgressTick exampleLocalState "LOCAL:leftpad" "leftpad"
      (0 + 1000) = some 50 :=
  progressTick_capped_spec.2.2.2 exampleLocalState "LOCAL:leftpad" "leftpad"
    ⟨0, "LOCAL", ⟨"user-requested", none, "Direct dependency in package.json"⟩, 0⟩
    (by decide) (by decide)

/-- C10: the global-store watcher tracks every non-dot entry under the
reserved project identity `GLOBAL` with the hard-coded chain info
`user-requested` / `parent = null` / `Global installation` — the chain
resolver is bypassed, so the classification is never `dependency`
(Transitive) or `unknown`. -/
theorem watchGlobal_user_requested :
    (∀ st dirPath now,
      jsStartsWith (basename dirPath) "." = false →
      st.activeInstalls.lookup (compositeKey "GLOBAL" (basename dirPath)) =
        none →
      (watchGlobalAddDir st dirPath now).activeInstalls.lookup
          (compositeKey "GLOBAL" (basename dirPath)) =
        some ⟨now, "GLOBAL", globalChainInfo, st.nextBarId⟩) ∧
    globalChainInfo = ⟨"user-requested", none, "Global installation"⟩ ∧
    globalChainInfo.type ≠ "dependency" ∧ globalChainInfo.type ≠ "unknown" := by
  refine ⟨?_, rfl, by decide, by decide⟩
  intro st dirPath now hdot hfresh
  unfold watchGlobalAddDir
  rw [if_neg (by simp [hdot])]
  unfold trackInstallationWithProgress
  rw [if_neg (by simp [hfresh])]
  simp [List.lookup]

/-- Witness for C10 at a concrete input: a new `express` directory in the
global store is tracked under `GLOBAL` with the hard-coded chain info. -/
theorem watchGlobal_user_requested_witness :
    (watchGlobalAddDir emptyMonitorState
        "/usr/local/lib/node_modules/express" 0).activeInstalls.lookup
      (compositeKey "GLOBAL"
        (basename "/usr/local/lib/node_modules/express")) =
      some ⟨0, "GLOBAL", globalChainInfo, 0⟩ :=
  watchGlobal_user_requested.1 emptyMonitorState
    "/usr/local/lib/node_modules/express" 0 (by decide) (by decide)

/-- `registerProject` on an already-monitored path is the identity. -/
theorem registerProject_mem {st : WatchRegistry} {p : String}
    (h : p ∈ st.monitoredProjects) : registerProject st p = st := by
  unfold registerProject
  rw [if_pos (show st.monitoredProjects.contains p = true by simpa using h)]

/-- `registerProject` on a fresh path adds it to the set and opens
exactly one watch subscription. -/
theorem registerProject_not_mem {st : WatchRegistry} {p : String}
    (h : p ∉ st.monitoredProjects) :
    registerProject st p =
      ⟨p :: st.monitoredProjects, p :: st.watchSubscriptions⟩ := by
  unfold registerProject
  rw [if_neg (show ¬st.monitoredProjects.contains p = true by simpa using h)]

/-- C8: registering the same project path twice is a no-op beyond the
first registration; with distinct entries (the set invariant), a
registered path has exactly one membership entry and one watch
subscription; and a discovery pass never re-adds a path that is already
monitored. -/
theorem registerProject_idempotent :
    (∀ st p, registerProject (registerProject st p) p = registerProject st p) ∧
    (∀ st p, st.monitoredProjects.Nodup →
      st.watchSubscriptions = st.monitoredProjects →
      (registerProject st p).monitoredProjects.Nodup ∧
      (registerProject st p).monitoredProjects.count p = 1 ∧
      (registerProject st p).watchSubscriptions =
        (registerProject st p).monitoredProjects ∧
      (registerProject st p).watchSubscriptions.count p = 1) ∧
    (∀ st dirs p, p ∈ st.monitoredProjects →
      (registerDiscoveredProjects st dirs).monitoredProjects.count p =
        st.monitoredProjects.count p) := by
  have hpres : ∀ (st : WatchRegistry) (q p : String), p ∈ st.monitoredProjects →
      p ∈ (registerProject st q).monitoredProjects ∧
      (registerProject st q).monitoredProjects.count p =
        st.monitoredProjects.count p := by
    intro st q p hp
    by_cases h : q ∈ st.monitoredProjects
    · rw [registerProject_mem h]; exact ⟨hp, rfl⟩
    · rw [registerProject_not_mem h]
      have hne : q ≠ p := fun he => h (he ▸ hp)
      exact ⟨List.mem_cons_of_mem q hp, List.count_cons_of_ne (Ne.symm hne) _⟩
  refine ⟨?_, ?_, ?_⟩
  · intro st p
    by_cases h : p ∈ st.monitoredProjects
    · rw [registerProject_mem h, registerProject_mem h]
    · rw [registerProject_not_mem h,
        registerProject_mem (List.mem_cons_self p st.monitoredProjects)]
  · intro st p hnd hws
    by_cases h : p ∈ st.monitoredProjects
    · rw [registerProject_mem h]
      have hc := List.count_eq_one_of_mem hnd h
      exact ⟨hnd, hc, hws, hws ▸ hc⟩
    · rw [registerProject_not_mem h]
      have hnd' : (p :: st.monitoredProjects).Nodup :=
        List.nodup_cons.mpr ⟨h, hnd⟩
      have hc : List.count p (p :: st.monitoredProjects) = 1 := by
        rw [List.count_cons_self, List.count_eq_zero.mpr h]
      exact ⟨hnd', hc, by rw [hws], by rw [hws]; exact hc⟩
  · intro st dirs p hp
    induction dirs generalizing st with
    | nil => rfl
    | cons d ds ih =>
      have h1 := hpres st d p hp
      calc (registerDiscoveredProjects st (d :: ds)).monitoredProjects.count p
          = (registerDiscoveredProjects (registerProject st d)
              ds).monitoredProjects.count p := rfl
        _ = (registerProject st d).monitoredProjects.count p := ih _ h1.1
        _ = st.monitoredProjects.count p := h1.2

/-- Witness for C8 at a concrete input: registering an already-monitored
path keeps exactly one membership entry and one watch subscription. -/
theorem registerProject_idempotent_witness :
    (registerProject ⟨["/home/u/app"], ["/home/u/app"]⟩
        "/home/u/app").monitoredProjects.Nodup ∧
    (registerProject ⟨["/home/u/app"], ["/home/u/app"]⟩
        "/home/u/app").monitoredProjects.count "/home/u/app" = 1 ∧
    (registerProject ⟨["/home/u/app"], ["/home/u/app"]⟩
        "/home/u/app").watchSubscriptions =
      (registerProject ⟨["/home/u/app"], ["/home/u/app"]⟩
        "/home/u/app").monitoredProjects ∧
    (registerProject ⟨["/home/u/app"], ["/home/u/app"]⟩
        "/home/u/app").watchSubscriptions.count "/home/u/app" = 1 :=
  registerProject_idempotent.2.1 ⟨["/home/u/app"], ["/home/u/app"]⟩
    "/home/u/app" (by decide) rfl

/-- C6: `analyzeDependencyChain` is total (the embedding returns a
`ChainInfo` for every input — the JS body is wrapped in one `try`): when
neither the manifest nor the lock file matches, it returns `unknown` with
reason `Installation source unknown`; when the manifest read fails, or the
lock file exists but its read fails, it returns `unknown` with the
distinct reason `Could not analyze dependency chain`. -/
theorem analyzeChain_error_handling :
    (∀ packageName lockExists lockRead,
      analyzeDependencyChain packageName (.error ()) lockExists lockRead =
        ⟨"unknown", none, "Could not analyze dependency chain"⟩) ∧
    (∀ packageName m,
      jsTruthyLookup (mergedDepsLookup m packageName) = false →
      analyzeDependencyChain packageName (.ok m) true (.error ()) =
        ⟨"unknown", none, "Could not analyze dependency chain"⟩) ∧
    (∀ packageName m lockRead,
      jsTruthyLookup (mergedDepsLookup m packageName) = false →
      analyzeDependencyChain packageName (.ok m) false lockRead =
        ⟨"unknown", none, "Installation source unknown"⟩) ∧
    (∀ packageName m lock,
      jsTruthyLookup (mergedDepsLookup m packageName) = false →
      findPackageInLock packageName lock none = none →
      analyzeDependencyChain packageName (.ok m) true (.ok lock) =
        ⟨"unknown", none, "Installation source unknown"⟩) := by
  refine ⟨fun _ _ _ => rfl, ?_, ?_, ?_⟩
  · intro packageName m h
    simp [analyzeDependencyChain, h]
  · intro packageName m lockRead h
    simp [analyzeDependencyChain, h]
  · intro packageName m lock h hfind
    simp [analyzeDependencyChain, h, hfind]

/-- Witness for C6 at a concrete input: resolving `chalk` against a
manifest that only declares `lodash` and no lock file yields `unknown` /
`Installation source unknown`. -/
theorem analyzeChain_error_handling_witness :
    analyzeDependencyChain "chalk" (.ok ⟨[("lodash", "^4.0.0")], []⟩) false
      (.error ()) = ⟨"unknown", none, "Installation source unknown"⟩ :=
  analyzeChain_error_handling.2.2.1 "chalk" ⟨[("lodash", "^4.0.0")], []⟩
    (.error ()) (by decide)

/-- C1 counterexample: `lodash` appears among the manifest's dependency
declarations (with the declared version string `""`), yet
`analyzeDependencyChain` does not classify it `user-requested`: the JS
truthiness test `allDeps[packageName]` fails on the empty string and the
resolver falls through to `unknown`. -/
theorem analyzeChain_manifest_counterexample :
    mergedDepsLookup ⟨[("lodash", "")], []⟩ "lodash" = some "" ∧
    analyzeDependencyChain "lodash" (.ok ⟨[("lodash", "")], []⟩) false
        (.error ()) ≠
      ⟨"user-requested", none, "Direct dependency in package.json"⟩ ∧
    analyzeDependencyChain "lodash" (.ok ⟨[("lodash", "")], []⟩) false
        (.error ()) =
      ⟨"unknown", none, "Installation source unknown"⟩ := by
  refine ⟨by decide, by decide, by decide⟩

/-- C1 (amended): for every package name whose value in the merged
dependency map (`devDependencies` shadowing `dependencies`) is a
non-empty (truthy) version string, `analyzeDependencyChain` returns
`user-requested` with `parent = null`, regardless of the lock file. -/
theorem analyzeChain_user_requested :
    ∀ packageName m v lockExists lockRead,
      mergedDepsLookup m packageName = some v → v ≠ "" →
      analyzeDependencyChain packageName (.ok m) lockExists lockRead =
        ⟨"user-requested", none, "Direct dependency in package.json"⟩ := by
  intro packageName m v lockExists lockRead hl hv
  have ht : jsTruthyLookup (mergedDepsLookup m packageName) = true := by
    rw [hl]; simpa [jsTruthyLookup] using hv
  simp [analyzeDependencyChain, ht]

/-- Witness for C1 (amended) at a concrete input: `lodash` declared with
version `^4.0.0` is classified `user-requested` with no parent. -/
theorem analyzeChain_user_requested_witness :
    analyzeDependencyChain "lodash" (.ok ⟨[("lodash", "^4.0.0")], []⟩) false
      (.error ()) =
      ⟨"user-requested", none, "Direct dependency in package.json"⟩ :=
  analyzeChain_user_requested "lodash" ⟨[("lodash", "^4.0.0")], []⟩ "^4.0.0"
    false (.error ()) (by decide) (by decide)

/-- `DepAncestor` is preserved when the forest grows at the front. -/
theorem depAncestor_cons {name : String} {p : Option String}
    {e : String × LockTree} {rest : List (String × LockTree)}
    (h : DepAncestor name p rest) : DepAncestor name p (e :: rest) := by
  cases h with
  | direct t _ hmem =>
    exact .direct name t _ (List.mem_cons_of_mem e hmem)
  | deeper dn sub _ q hmem hsub =>
    exact .deeper name dn sub _ q (List.mem_cons_of_mem e hmem) hsub

/-- Soundness of the nested-tree search: a returned parent is either the
`parent` accumulator itself (the package sits at the top level of the
forest searched) or the name of the immediate parent node of an actual
occurrence of the package in the forest. -/
theorem findPackageInDepsList_sound (forest : List (String × LockTree))
    (name : String) (par res : Option String)
    (h : findPackageInDepsList name par forest = some res) :
    (res = par ∧ DepAncestor name none forest) ∨
    (∃ x, res = some x ∧ DepAncestor name (some x) forest) :=
  match forest with
  | [] => by simp [findPackageInDepsList] at h
  | (dn, LockTree.node sub) :: rest => by
    rw [findPackageInDepsList] at h
    by_cases hd : dn = name
    · subst hd
      rw [if_pos rfl] at h
      exact Or.inl ⟨(Option.some.inj h).symm,
        .direct dn (LockTree.node sub) _ (List.mem_cons_self _ _)⟩
    · rw [if_neg hd] at h
      cases hsub : findPackageInDepsList name (some dn) sub with
      | some r =>
        rw [hsub] at h
        have hres : r = res := Option.some.inj h
        subst hres
        rcases findPackageInDepsList_sound sub name (some dn) r hsub with
          ⟨hr, hda⟩ | ⟨x, hx, hda⟩
        · refine Or.inr ⟨dn, hr, ?_⟩
          have := DepAncestor.deeper name dn sub
            ((dn, LockTree.node sub) :: rest) none (List.mem_cons_self _ _) hda
          simpa using this
        · refine Or.inr ⟨x, hx, ?_⟩
          have := DepAncestor.deeper name dn sub
            ((dn, LockTree.node sub) :: rest) (some x)
            (List.mem_cons_self _ _) hda
          simpa using this
      | none =>
        rw [hsub] at h
        rcases findPackageInDepsList_sound rest name par res h with
          ⟨hr, hda⟩ | ⟨x, hx, hda⟩
        · exact Or.inl ⟨hr, depAncestor_cons hda⟩
        · exact Or.inr ⟨x, hx, depAncestor_cons hda⟩
termination_by sizeOf forest
decreasing_by
  all_goals simp_wf
  all_goals omega

/-- If the package sits at the top level of the forest, the search
succeeds (any accumulator). -/
theorem find_isSome_of_direct (name : String) (t : LockTree)
    (forest : List (String × LockTree)) (hmem : (name, t) ∈ forest) :
    ∀ par, (findPackageInDepsList name par forest).isSome = true := by
  induction forest with
  | nil => simp at hmem
  | cons e rest ih =>
    obtain ⟨dn, tree⟩ := e
    cases tree with
    | node sub =>
      intro par
      rw [findPackageInDepsList]
      by_cases hd : dn = name
      · rw [if_pos hd]; simp
      · rw [if_neg hd]
        rcases List.mem_cons.mp hmem with heq | hmem'
        · injection heq with h1 h2
          exact absurd h1.symm hd
        · cases hfind : findPackageInDepsList name (some dn) sub with
          | some r => simp
          | none =>
            show (findPackageInDepsList name par rest).isSome = true
            exact ih hmem' par

/-- If some entry's subtree already yields a hit, the search over the
whole forest succeeds. -/
theorem find_isSome_of_nested (name dn : String)
    (sub forest : List (String × LockTree))
    (hmem : (dn, LockTree.node sub) ∈ forest)
    (hsub : ∀ par, (findPackageInDepsList name par sub).isSome = true) :
    ∀ par, (findPackageInDepsList name par forest).isSome = true := by
  induction forest with
  | nil => simp at hmem
  | cons e rest ih =>
    obtain ⟨d0, tree⟩ := e
    cases tree with
    | node s0 =>
      intro par
      rw [findPackageInDepsList]
      by_cases hd : d0 = name
      · rw [if_pos hd]; simp
      · rw [if_neg hd]
        cases hfind : findPackageInDepsList name (some d0) s0 with
        | some r => simp
        | none =>
          show (findPackageInDepsList name par rest).isSome = true
          rcases List.mem_cons.mp hmem with heq | hmem'
          · injection heq with h1 h2
            injection h2 with h3
            have hs := hsub (some d0)
            rw [h3, hfind] at hs
            simp at hs
          · exact ih hmem' par

/-- Completeness of the nested-tree search: the depth-first traversal
finds every package that occurs anywhere in the forest. -/
theorem findPackageInDepsList_complete (forest : List (String × LockTree))
    (name : String) (q par : Option String) (h : DepAncestor name q forest) :
    (findPackageInDepsList name par forest).isSome = true := by
  induction h generalizing par with
  | direct t f hmem => exact find_isSome_of_direct name t f hmem par
  | deeper dn sub f qq hmem hsub ih =>
    exact find_isSome_of_nested name dn sub f hmem (fun par2 => ih par2) par

/-- C5: on a nested-tree lock file (no flat table), a successful
resolution classifies the package `dependency` (Transitive) with the
returned parent, and that parent is `null` for a top-level occurrence or
the name of the immediate (nearest) ancestor node of an occurrence; the
depth-first search finds every package present in the tree; and on the
tree `{"a": {"dependencies": {"b": {}}}}` resolving `"b"` yields
`dependency` with parent `"a"`. -/
theorem lockTree_dfs_nearest_ancestor :
    (∀ (name : String) (m : Manifest) (lock : LockJson)
        (deps : List (String × LockTree)) (res : Option String),
      jsTruthyLookup (mergedDepsLookup m name) = false →
      lock.packages = none → lock.dependencies = some deps →
      findPackageInLock name lock none = some res →
      analyzeDependencyChain name (.ok m) true (.ok lock) =
        ⟨"dependency", res, "Dependency of " ++ jsOrUnknownPackage res⟩ ∧
      ((res = none ∧ DepAncestor name none deps) ∨
        (∃ x, res = some x ∧ DepAncestor name (some x) deps))) ∧
    (∀ (name : String) (deps : List (String × LockTree)) (q : Option String),
      DepAncestor name q deps →
      (findPackageInDepsList name none deps).isSome = true) ∧
    analyzeDependencyChain "b" (.ok ⟨[], []⟩) true
        (.ok ⟨none, some [("a", .node [("b", .node [])])]⟩) =
      ⟨"dependency", some "a", "Dependency of a"⟩ := by
  refine ⟨?_, ?_, by
    simp [analyzeDependencyChain, findPackageInLock, findPackageInDepsList,
      mergedDepsLookup, jsTruthyLookup, jsOrUnknownPackage]⟩
  · intro name m lock deps res hfalse hpk hdep hfind
    have hfind' : findPackageInDepsList name none deps = some res := by
      unfold findPackageInLock at hfind
      rw [hpk, hdep] at hfind
      exact hfind
    constructor
    · simp [analyzeDependencyChain, hfalse, hfind]
    · exact findPackageInDepsList_sound deps name none res hfind'
  · intro name deps q h
    exact findPackageInDepsList_complete deps name q none h

/-- Witness for C5 at a concrete input: the nested lock
`{"a": {"dependencies": {"b": {}}}}` classifies `"b"` as a dependency of
`"a"`, and `"a"` is the nearest ancestor of the occurrence of `"b"`. -/
theorem lockTree_dfs_nearest_ancestor_witness :
    analyzeDependencyChain "b" (.ok ⟨[], []⟩) true
        (.ok ⟨none, some [("a", .node [("b", .node [])])]⟩) =
      ⟨"dependency", some "a",
        "Dependency of " ++ jsOrUnknownPackage (some "a")⟩ ∧
    ((some "a" = none ∧ DepAncestor "b" none [("a", .node [("b", .node [])])]) ∨
      (∃ x, some "a" = some x ∧
        DepAncestor "b" (some x) [("a", .node [("b", .node [])])])) :=
  lockTree_dfs_nearest_ancestor.1 "b" ⟨[], []⟩
    ⟨none, some [("a", .node [("b", .node [])])]⟩
    [("a", .node [("b", .node [])])] (some "a") (by decide) rfl rfl
    (by simp [findPackageInLock, findPackageInDepsList])

/-- A list is a `chIsPrefix` of itself followed by anything. -/
theorem chIsPrefix_append_self (l t : List Char) :
    chIsPrefix l (l ++ t) = true := by
  induction l with
  | nil => rfl
  | cons a as ih => simp [chIsPrefix, ih]

/-- A string always `jsEndsWith` its appended suffix. -/
theorem jsEndsWith_append (pre pat : String) :
    jsEndsWith (pre ++ pat) pat = true := by
  unfold jsEndsWith
  rw [String.data_append, List.reverse_append]
  exact chIsPrefix_append_self pat.data.reverse pre.data.reverse

/-- When the pattern occurs only as the final suffix, deleting its first
occurrence (JS `replace`) strips exactly that suffix. -/
theorem chReplaceFirst_strip (preL patL : List Char)
    (hno : ∀ i, i < preL.length →
      chIsPrefix patL ((preL ++ patL).drop i) = false) :
    chReplaceFirst patL [] (preL ++ patL) = preL := by
  induction preL with
  | nil =>
    simp only [List.nil_append]
    cases patL with
    | nil => rfl
    | cons c cs =>
      have hpre : chIsPrefix (c :: cs) (c :: cs) = true := by
        have := chIsPrefix_append_self (c :: cs) []
        rwa [List.append_nil] at this
      simp [chReplaceFirst, hpre, List.drop_length]
  | cons c preL2 ih =>
    have h0 : chIsPrefix patL (c :: (preL2 ++ patL)) = false := by
      have := hno 0 (by simp)
      simpa using this
    simp only [List.cons_append]
    simp [chReplaceFirst, h0]
    exact ih (fun i hi => by
      have := hno (i + 1) (by simpa using Nat.succ_lt_succ hi)
      simpa [List.drop_succ_cons] using this)

/-- C4 counterexample: in the flat table with single key
`"/node_modules/b/x/node_modules/b"`, the key ends with the suffix
`/node_modules/b` and the segment immediately preceding that suffix is
`"x"`, yet the resolver returns parent `"b"`: JS `replace` deletes the
FIRST occurrence of the pattern (here at the start of the key), not the
final suffix. -/
theorem findInPackagesTable_counterexample :
    jsEndsWith "/node_modules/b/x/node_modules/b" "/node_modules/b" = true ∧
    findInPackagesTable "b" none ["/node_modules/b/x/node_modules/b"] =
      some (some "b") ∧
    findInPackagesTable "b" none ["/node_modules/b/x/node_modules/b"] ≠
      some (some "x") := by
  refine ⟨by decide, by decide, by decide⟩

/-- C4 (amended): for a flat-table key of the form
`pre ++ "/node_modules/" ++ name` in which the pattern
`/node_modules/<name>` occurs ONLY as that final suffix (and any earlier
table keys do not end with the pattern), the resolver returns `dependency`
with parent the last `/`-segment of `pre` — the path segment immediately
preceding the suffix — or `null` when that segment is empty (in particular
when the suffix is the whole key); when the pattern also occurs earlier in
the key, the first occurrence is deleted instead (see the counterexample).
The flat entry `"node_modules/a/node_modules/b"` resolves `"b"` to parent
`"a"`. -/
theorem findInPackagesTable_parent_of_suffix :
    (∀ (pre name : String) (ks1 ks2 : List String),
      (∀ k ∈ ks1, jsEndsWith k ("/node_modules/" ++ name) = false) →
      (∀ i, i < pre.data.length →
        chIsPrefix ("/node_modules/" ++ name).data
          ((pre.data ++ ("/node_modules/" ++ name).data).drop i) = false) →
      findInPackagesTable name none
          (ks1 ++ (pre ++ ("/node_modules/" ++ name)) :: ks2) =
        some (if basename pre = "" then none else some (basename pre))) ∧
    analyzeDependencyChain "b" (.ok ⟨[], []⟩) true
        (.ok ⟨some ["node_modules/a/node_modules/b"], none⟩) =
      ⟨"dependency", some "a", "Dependency of a"⟩ := by
  constructor
  · intro pre name ks1 ks2 hks1 hno
    induction ks1 with
    | nil =>
      have hends := jsEndsWith_append pre ("/node_modules/" ++ name)
      have hdata : (pre ++ ("/node_modules/" ++ name)).data =
          pre.data ++ ("/node_modules/" ++ name).data :=
        String.data_append pre ("/node_modules/" ++ name)
      have hrep : jsReplaceFirst (pre ++ ("/node_modules/" ++ name))
          ("/node_modules/" ++ name) "" = pre := by
        unfold jsReplaceFirst
        rw [show ("" : String).data = [] from rfl, hdata,
          chReplaceFirst_strip pre.data ("/node_modules/" ++ name).data hno]
      simp only [List.nil_append, findInPackagesTable, hends, if_true, hrep]
      rfl
    | cons k ks ih =>
      have hkend := hks1 k (List.mem_cons_self k ks)
      simp only [List.cons_append, findInPackagesTable, hkend,
        Bool.false_eq_true, if_false]
      exact ih (fun k2 hk2 => hks1 k2 (List.mem_cons_of_mem k hk2))
  · decide

/-- Witness for C4 (amended) at a concrete input: the lone flat key
`"node_modules/a" ++ "/node_modules/" ++ "b"` resolves `"b"` to the
segment `"a"` immediately preceding the suffix. -/
theorem findInPackagesTable_parent_of_suffix_witness :
    findInPackagesTable "b" none
        (([] : List String) ++
          ("node_modules/a" ++ ("/node_modules/" ++ "b")) :: []) =
      some (if basename "node_modules/a" = "" then none
        else some (basename "node_modules/a")) :=
  findInPackagesTable_parent_of_suffix.1 "node_modules/a" "b" [] []
    (by simp) (by decide)

/-- Removing every pair with a given key makes lookup of that key fail. -/
theorem lookup_filter_ne {β : Type} (key : String) (l : List (String × β)) :
    (l.filter (fun e => e.1 ≠ key)).lookup key = none := by
  induction l with
  | nil => rfl
  | cons e rest ih =>
    obtain ⟨a, b⟩ := e
    simp only [List.filter_cons]
    by_cases h : a = key
    · rw [if_neg (by simp [h])]
      exact ih
    · rw [if_pos (by simp [h])]
      have hba : (key == a) = false := by simp [Ne.symm h]
      simp only [List.lookup, hba]
      exact ih

/-- The active-key guard of the completion poll, rephrased. -/
theorem isNone_eq_false_of_isSome {α : Type} {o : Option α}
    (h : o.isSome = true) : o.isNone = false := by
  cases o with
  | none => simp at h
  | some v => rfl

/-- `checkComplete` when the key is active, the package path resolves and
the manifest file is observed: the Done transition. -/
theorem checkCompleteStep_done {st : MonitorState}
    {packageName projectName : String} {fe : String → Bool} {path : String}
    (hact : (st.activeInstalls.lookup
      (compositeKey projectName packageName)).isSome = true)
    (hres : resolvePackagePath st.monitoredProjects projectName packageName =
      some path)
    (hf : fe path = true) :
    checkCompleteStep st packageName projectName fe =
      ⟨{ st with
          activeInstalls := st.activeInstalls.filter
            (fun e => e.1 ≠ compositeKey projectName packageName)
          progressBars := st.progressBars.filter
            (fun e => e.1 ≠ compositeKey projectName packageName)
          progressIntervals := st.progressIntervals.filter
            (fun k => k ≠ compositeKey projectName packageName) },
        .done, some 100, some completionLingerMs, none⟩ := by
  unfold checkCompleteStep
  rw [if_neg (by simp [isNone_eq_false_of_isSome hact]), hres]
  simp [hf]

/-- `checkComplete` when the key is active and the path resolves but the
manifest file is absent: re-poll after 300 ms, state unchanged. -/
theorem checkCompleteStep_retry_notfound {st : MonitorState}
    {packageName projectName : String} {fe : String → Bool} {path : String}
    (hact : (st.activeInstalls.lookup
      (compositeKey projectName packageName)).isSome = true)
    (hres : resolvePackagePath st.monitoredProjects projectName packageName =
      some path)
    (hf : fe path = false) :
    checkCompleteStep st packageName projectName fe =
      ⟨st, .retry, none, none, some completionRetryDelayMs⟩ := by
  unfold checkCompleteStep
  rw [if_neg (by simp [isNone_eq_false_of_isSome hact]), hres]
  simp [hf]

/-- `checkComplete` when the key is active but no package path resolves
(no monitored project matches the name): re-poll after 300 ms forever. -/
theorem checkCompleteStep_retry_nopath {st : MonitorState}
    {packageName projectName : String} {fe : String → Bool}
    (hact : (st.activeInstalls.lookup
      (compositeKey projectName packageName)).isSome = true)
    (hres : resolvePackagePath st.monitoredProjects projectName packageName =
      none) :
    checkCompleteStep st packageName projectName fe =
      ⟨st, .retry, none, none, some completionRetryDelayMs⟩ := by
  unfold checkCompleteStep
  rw [if_neg (by simp [isNone_eq_false_of_isSome hact]), hres]

/-- C7 counterexample: with `lodash` active under `LOCAL` and the manifest
file present, the Done transition schedules the 1000 ms linger for the
indicator, but the `Installation` record (and the bar-map entry) is
already deleted at that same instant — not, as claimed, after the linger. -/
theorem checkComplete_record_deleted_before_linger :
    (checkCompleteStep exampleLodashState "lodash" "LOCAL"
      (fun _ => true)).outcome = .done ∧
    (checkCompleteStep exampleLodashState "lodash" "LOCAL"
      (fun _ => true)).lingerScheduledMs = some completionLingerMs ∧
    (checkCompleteStep exampleLodashState "lodash" "LOCAL"
      (fun _ => true)).state.activeInstalls.lookup "LOCAL:lodash" = none ∧
    (checkCompleteStep exampleLodashState "lodash" "LOCAL"
      (fun _ => true)).state.progressBars.lookup "LOCAL:lodash" = none := by
  refine ⟨by decide, by decide, by decide, by decide⟩

/-- `checkComplete` when the key is no longer active: the poll stops. -/
theorem checkCompleteStep_stopped {st : MonitorState}
    {packageName projectName : String} {fe : String → Bool}
    (h : st.activeInstalls.lookup (compositeKey projectName packageName) =
      none) :
    checkCompleteStep st packageName projectName fe =
      ⟨st, .stopped, none, none, none⟩ := by
  unfold checkCompleteStep
  rw [if_pos (by simp [h])]

/-- C7 (amended): for an active installation the completion poll (first
check after 500 ms, retried every 300 ms) transitions to Done exactly when
the package's manifest file is observed at the resolved location — on Done
the bar is set to 100, the progress tick entry is cleared, the
`Installation` record and bar-map entry are deleted immediately, and only
the indicator's removal from the display is deferred by the 1000 ms
linger; when the file is not observed (or no expected location resolves)
the poll re-arms after 300 ms with the state unchanged, indefinitely — no
timeout or abandonment ever changes the state. -/
theorem completionPoll_spec :
    (∀ st packageName projectName fe (path : String),
      (st.activeInstalls.lookup
        (compositeKey projectName packageName)).isSome = true →
      resolvePackagePath st.monitoredProjects projectName packageName =
        some path →
      fe path = true →
      (checkCompleteStep st packageName projectName fe).outcome = .done ∧
      (checkCompleteStep st packageName projectName fe).barUpdate =
        some 100 ∧
      (checkCompleteStep st packageName projectName fe).lingerScheduledMs =
        some completionLingerMs ∧
      (checkCompleteStep st packageName projectName
          fe).state.activeInstalls.lookup
        (compositeKey projectName packageName) = none ∧
      (checkCompleteStep st packageName projectName
          fe).state.progressBars.lookup
        (compositeKey projectName packageName) = none ∧
      compositeKey projectName packageName ∉
        (checkCompleteStep st packageName projectName
          fe).state.progressIntervals) ∧
    (∀ st packageName projectName fe,
      (st.activeInstalls.lookup
        (compositeKey projectName packageName)).isSome = true →
      (checkCompleteStep st packageName projectName fe).outcome = .done →
      ∃ p, resolvePackagePath st.monitoredProjects projectName packageName =
        some p ∧ fe p = true) ∧
    (∀ st packageName projectName fe (path : String),
      (st.activeInstalls.lookup
        (compositeKey projectName packageName)).isSome = true →
      resolvePackagePath st.monitoredProjects projectName packageName =
        some path →
      fe path = false →
      checkCompleteStep st packageName projectName fe =
        ⟨st, .retry, none, none, some completionRetryDelayMs⟩) ∧
    (∀ st packageName projectName fe,
      (st.activeInstalls.lookup
        (compositeKey projectName packageName)).isSome = true →
      resolvePackagePath st.monitoredProjects projectName packageName =
        none →
      checkCompleteStep st packageName projectName fe =
        ⟨st, .retry, none, none, some completionRetryDelayMs⟩) ∧
    (∀ st packageName projectName fe,
      (∀ p, fe p = false) →
      (∀ n, pollIter packageName projectName fe st n = st) ∧
      ((st.activeInstalls.lookup
          (compositeKey projectName packageName)).isSome = true →
        ∀ n, (checkCompleteStep (pollIter packageName projectName fe st n)
          packageName projectName fe).outcome = .retry)) ∧
    (completionFirstCheckDelayMs = 500 ∧ completionRetryDelayMs = 300 ∧
      completionLingerMs = 1000) := by
  refine ⟨?_, ?_, ?_, ?_, ?_, rfl, rfl, rfl⟩
  · intro st packageName projectName fe path hact hres hf
    rw [checkCompleteStep_done hact hres hf]
    refine ⟨rfl, rfl, rfl, lookup_filter_ne _ _, lookup_filter_ne _ _, ?_⟩
    simp
  · intro st packageName projectName fe hact houtcome
    cases hr : resolvePackagePath st.monitoredProjects projectName
        packageName with
    | none =>
      rw [checkCompleteStep_retry_nopath hact hr] at houtcome
      simp at houtcome
    | some p =>
      by_cases hf : fe p
      · exact ⟨p, rfl, hf⟩
      · rw [checkCompleteStep_retry_notfound hact hr
          (by simpa using hf)] at houtcome
        simp at houtcome
  · intro st packageName projectName fe path hact hres hf
    exact checkCompleteStep_retry_notfound hact hres hf
  · intro st packageName projectName fe hact hres
    exact checkCompleteStep_retry_nopath hact hres
  · intro st packageName projectName fe hfe
    have hstep : ∀ st2 : MonitorState,
        (checkCompleteStep st2 packageName projectName fe).state = st2 := by
      intro st2
      by_cases hact : (st2.activeInstalls.lookup
          (compositeKey projectName packageName)).isSome = true
      · cases hr : resolvePackagePath st2.monitoredProjects projectName
            packageName with
        | none => rw [checkCompleteStep_retry_nopath hact hr]
        | some p => rw [checkCompleteStep_retry_notfound hact hr (hfe p)]
      · have hnone : st2.activeInstalls.lookup
            (compositeKey projectName packageName) = none := by
          cases hl : st2.activeInstalls.lookup
              (compositeKey projectName packageName) with
          | none => rfl
          | some v => exact absurd (by rw [hl]; rfl) hact
        rw [checkCompleteStep_stopped hnone]
    have hiter : ∀ n, pollIter packageName projectName fe st n = st := by
      intro n
      induction n with
      | zero => rfl
      | succ n ih =>
        show (checkCompleteStep (pollIter packageName projectName fe st n)
          packageName projectName fe).state = st
        rw [ih, hstep]
    refine ⟨hiter, ?_⟩
    intro hact n
    rw [hiter n]
    cases hr : resolvePackagePath st.monitoredProjects projectName
        packageName with
    | none => rw [checkCompleteStep_retry_nopath hact hr]
    | some p => rw [checkCompleteStep_retry_notfound hact hr (hfe p)]

/-- Witness for C7 (amended) at a concrete input: `lodash` active under
`LOCAL`, manifest file present — the poll completes: bar at 100, linger
scheduled, record and bar entry gone at once. -/
theorem completionPoll_spec_witness :
    (checkCompleteStep exampleLodashState "lodash" "LOCAL"
      (fun _ => true)).outcome = .done ∧
    (checkCompleteStep exampleLodashState "lodash" "LOCAL"
      (fun _ => true)).barUpdate = some 100 ∧
    (checkCompleteStep exampleLodashState "lodash" "LOCAL"
      (fun _ => true)).lingerScheduledMs = some completionLingerMs ∧
    (checkCompleteStep exampleLodashState "lodash" "LOCAL"
      (fun _ => true)).state.activeInstalls.lookup
      (compositeKey "LOCAL" "lodash") = none ∧
    (checkCompleteStep exampleLodashState "lodash" "LOCAL"
      (fun _ => true)).state.progressBars.lookup
      (compositeKey "LOCAL" "lodash") = none ∧
    compositeKey "LOCAL" "lodash" ∉
      (checkCompleteStep exampleLodashState "lodash" "LOCAL"
        (fun _ => true)).state.progressIntervals :=
  completionPoll_spec.1 exampleLodashState "lodash" "LOCAL" (fun _ => true)
    "node_modules/lodash/package.json" (by decide) (by decide) rfl
